import Mathlib

/-!
Shallow embedding of the rendezvous / transport-establishment layer of
RCCL (`src/init.cc`), together with proofs about its per-claim behaviour.

Machine integers of the source (`int`, `int64_t`, `uint64_t`) are modelled
as `Int`: the embedded code only compares them and takes minima, so no
overflow is observable.  `float` speed fields are likewise modelled as
`Int`: the only operation applied to them is `std::min`, which is purely
order-theoretic.  NULL-able C pointers become `Option` values.
-/

namespace RcclInit

/-- Result codes of the library (`ncclResult_t`). -/
inductive ncclResult where
  | ncclSuccess
  | ncclUnhandledCudaError
  | ncclSystemError
  | ncclInternalError
  | ncclInvalidArgument
  | ncclInvalidUsage
deriving DecidableEq, Repr

open ncclResult

/-- `struct ncclPeerInfo` (the fields exchanged in AllGather1 that the
duplicate-device check reads: only `hostHash` and `busId` are compared). -/
structure ncclPeerInfo where
  rank : Int
  cudaDev : Int
  hostHash : Int
  pidHash : Int
  shmDev : Int
  busId : Int
deriving DecidableEq, Repr

/-- Default/zero peer record (used as the out-of-range default of `getD`;
all accesses in theorems are guarded by in-range hypotheses). -/
def peerZero : ncclPeerInfo := ⟨0, 0, 0, 0, 0, 0⟩

/-- The duplicate-GPU rejection loop of `initTransportsRank`
(`init.cc:768-774`): rank `rank` scans the gathered array and returns
`ncclInvalidUsage` as soon as some other rank `i` reports the same
`(hostHash, busId)` pair as rank `rank` itself; otherwise the check
passes. -/
def dupDeviceCheck (peers : List ncclPeerInfo) (rank : Nat) : ncclResult :=
  if (List.range peers.length).any (fun i =>
      i != rank
        && (peers.getD i peerZero).hostHash == (peers.getD rank peerZero).hostHash
        && (peers.getD i peerZero).busId == (peers.getD rank peerZero).busId)
  then ncclInvalidUsage
  else ncclSuccess

theorem dupDeviceCheck_eq_invalidUsage_iff (peers : List ncclPeerInfo) (rank : Nat) :
    dupDeviceCheck peers rank = ncclInvalidUsage ↔
      ∃ i, i < peers.length ∧ i ≠ rank ∧
        (peers.getD i peerZero).hostHash = (peers.getD rank peerZero).hostHash ∧
        (peers.getD i peerZero).busId = (peers.getD rank peerZero).busId := by
  unfold dupDeviceCheck
  split
  · rename_i hc
    rw [List.any_eq_true] at hc
    obtain ⟨i, hi, hp⟩ := hc
    simp only [Bool.and_eq_true, bne_iff_ne, beq_iff_eq] at hp
    exact iff_of_true rfl ⟨i, List.mem_range.mp hi, hp.1.1, hp.1.2, hp.2⟩
  · rename_i hc
    constructor
    · intro h
      cases h
    · intro ⟨i, hlen, hne, hh, hb⟩
      exfalso
      apply hc
      rw [List.any_eq_true]
      exact ⟨i, List.mem_range.mpr hlen, by
        simp only [Bool.and_eq_true, bne_iff_ne, beq_iff_eq]
        exact ⟨⟨hne, hh⟩, hb⟩⟩

theorem dupDeviceCheck_eq_success_iff (peers : List ncclPeerInfo) (rank : Nat) :
    dupDeviceCheck peers rank = ncclSuccess ↔
      ∀ i, i < peers.length → i ≠ rank →
        ¬((peers.getD i peerZero).hostHash = (peers.getD rank peerZero).hostHash ∧
          (peers.getD i peerZero).busId = (peers.getD rank peerZero).busId) := by
  constructor
  · intro h i hlen hne hpair
    have : dupDeviceCheck peers rank = ncclInvalidUsage :=
      (dupDeviceCheck_eq_invalidUsage_iff peers rank).mpr ⟨i, hlen, hne, hpair.1, hpair.2⟩
    rw [h] at this
    cases this
  · intro h
    unfold dupDeviceCheck
    rw [if_neg]
    intro hany
    rw [List.any_eq_true] at hany
    obtain ⟨i, hi, hp⟩ := hany
    simp only [Bool.and_eq_true, bne_iff_ne, beq_iff_eq] at hp
    exact h i (List.mem_range.mp hi) hp.1.1 ⟨hp.1.2, hp.2⟩

/-- A 3-rank peer array in which ranks 0 and 1 both report
`(hostHash, busId) = (11, 77)` while rank 2 reports a distinct device. -/
def dupPeers : List ncclPeerInfo :=
  [⟨0, 0, 11, 1, 1, 77⟩, ⟨1, 1, 11, 2, 1, 77⟩, ⟨2, 2, 22, 3, 1, 99⟩]

/-- C3 counterexample: ranks 0 and 1 of `dupPeers` are distinct ranks with an
identical `(hostHash, busId)` pair, yet the check run by rank 2 succeeds
(it does not return `ncclInvalidUsage`), so initialization does not fail
with `InvalidUsage` on every rank as the claim states. -/
theorem dupDeviceCheck_not_global :
    (dupPeers.getD 0 peerZero).hostHash = (dupPeers.getD 1 peerZero).hostHash ∧
    (dupPeers.getD 0 peerZero).busId = (dupPeers.getD 1 peerZero).busId ∧
    dupDeviceCheck dupPeers 2 = ncclSuccess ∧
    dupDeviceCheck dupPeers 2 ≠ ncclInvalidUsage := by
  refine ⟨rfl, rfl, by decide, by decide⟩

/-- C3 (amended): after AllGather1 the duplicate check of rank `rank` fails
with `InvalidUsage` exactly when some other rank reports the same
`(hostHash, busId)` pair as rank `rank` itself; in particular the two ranks
involved in any duplicate both fail, and when no duplicate pair exists at
all among distinct ranks the check passes on every rank. -/
theorem dupDeviceCheck_spec (peers : List ncclPeerInfo) (rank : Nat)
    (hrank : rank < peers.length) :
    (dupDeviceCheck peers rank = ncclInvalidUsage ↔
      ∃ i, i < peers.length ∧ i ≠ rank ∧
        (peers.getD i peerZero).hostHash = (peers.getD rank peerZero).hostHash ∧
        (peers.getD i peerZero).busId = (peers.getD rank peerZero).busId) ∧
    ((∀ i j, i < peers.length → j < peers.length → i ≠ j →
        ¬((peers.getD i peerZero).hostHash = (peers.getD j peerZero).hostHash ∧
          (peers.getD i peerZero).busId = (peers.getD j peerZero).busId)) →
      dupDeviceCheck peers rank = ncclSuccess) := by
  refine ⟨dupDeviceCheck_eq_invalidUsage_iff peers rank, fun hnodup => ?_⟩
  rw [dupDeviceCheck_eq_success_iff]
  intro i hlen hne
  exact hnodup i rank hlen hrank hne

/-- C3 witness: the amended theorem applied to the concrete duplicate-free
2-rank array. -/
theorem dupDeviceCheck_spec_witness :
    (1 : Nat) < ([⟨0, 0, 5, 1, 1, 7⟩, ⟨1, 1, 6, 2, 1, 8⟩] : List ncclPeerInfo).length ∧
    ((dupDeviceCheck [⟨0, 0, 5, 1, 1, 7⟩, ⟨1, 1, 6, 2, 1, 8⟩] 1 = ncclInvalidUsage ↔
      ∃ i, i < ([⟨0, 0, 5, 1, 1, 7⟩, ⟨1, 1, 6, 2, 1, 8⟩] : List ncclPeerInfo).length ∧ i ≠ 1 ∧
        (([⟨0, 0, 5, 1, 1, 7⟩, ⟨1, 1, 6, 2, 1, 8⟩] : List ncclPeerInfo).getD i peerZero).hostHash =
          (([⟨0, 0, 5, 1, 1, 7⟩, ⟨1, 1, 6, 2, 1, 8⟩] : List ncclPeerInfo).getD 1 peerZero).hostHash ∧
        (([⟨0, 0, 5, 1, 1, 7⟩, ⟨1, 1, 6, 2, 1, 8⟩] : List ncclPeerInfo).getD i peerZero).busId =
          (([⟨0, 0, 5, 1, 1, 7⟩, ⟨1, 1, 6, 2, 1, 8⟩] : List ncclPeerInfo).getD 1 peerZero).busId) ∧
    ((∀ i j, i < ([⟨0, 0, 5, 1, 1, 7⟩, ⟨1, 1, 6, 2, 1, 8⟩] : List ncclPeerInfo).length →
        j < ([⟨0, 0, 5, 1, 1, 7⟩, ⟨1, 1, 6, 2, 1, 8⟩] : List ncclPeerInfo).length → i ≠ j →
        ¬((([⟨0, 0, 5, 1, 1, 7⟩, ⟨1, 1, 6, 2, 1, 8⟩] : List ncclPeerInfo).getD i peerZero).hostHash =
            (([⟨0, 0, 5, 1, 1, 7⟩, ⟨1, 1, 6, 2, 1, 8⟩] : List ncclPeerInfo).getD j peerZero).hostHash ∧
          (([⟨0, 0, 5, 1, 1, 7⟩, ⟨1, 1, 6, 2, 1, 8⟩] : List ncclPeerInfo).getD i peerZero).busId =
            (([⟨0, 0, 5, 1, 1, 7⟩, ⟨1, 1, 6, 2, 1, 8⟩] : List ncclPeerInfo).getD j peerZero).busId)) →
      dupDeviceCheck [⟨0, 0, 5, 1, 1, 7⟩, ⟨1, 1, 6, 2, 1, 8⟩] 1 = ncclSuccess)) :=
  ⟨by decide, dupDeviceCheck_spec [⟨0, 0, 5, 1, 1, 7⟩, ⟨1, 1, 6, 2, 1, 8⟩] 1 (by decide)⟩

/-- `struct ncclGraphInfo` (the per-graph record published in AllGather3,
`init.cc:914-921`).  `speedIntra`/`speedInter` are `float` in the source;
only `std::min` is applied to them, so an ordered integer model is exact. -/
structure ncclGraphInfo where
  pattern : Int
  sameChannels : Int
  speedIntra : Int
  speedInter : Int
  typeIntra : Int
  typeInter : Int
deriving DecidableEq, Repr

/-- One rank's AllGather3 record (`init.cc:923-932`).  `ringRecv0` models
`topoRanks.ringRecv[0]`, the only component of the topo-ranks descriptor the
node-grouping scan reads (`init.cc:971`); the remaining descriptor entries
are irrelevant to the claims and elided. -/
structure allGather3Record where
  cudaCompCap : Int
  nChannels : Int
  gcn : Int
  tree : ncclGraphInfo
  ring : ncclGraphInfo
  collNet : ncclGraphInfo
  ringRecv0 : Int
deriving DecidableEq, Repr

/-- Zero record (default of `getD`; every access is guarded by an in-range
hypothesis). -/
def ag3Zero : allGather3Record :=
  ⟨0, 0, 0, ⟨0, 0, 0, 0, 0, 0⟩, ⟨0, 0, 0, 0, 0, 0⟩, ⟨0, 0, 0, 0, 0, 0⟩, 0⟩

/-- The state reconciled by the post-AllGather3 loop: `comm->nChannels` plus
the three local graphs whose numeric attributes the loop folds with
`std::min` (`init.cc:988-1008`).  The `pattern` fields are not reconciled
and keep their local values. -/
structure reconcileResult where
  nChannels : Int
  tree : ncclGraphInfo
  ring : ncclGraphInfo
  collNet : ncclGraphInfo
deriving DecidableEq, Repr

/-- One iteration of the reconciliation loop (`init.cc:992-1007`): every
reconciled field becomes the minimum of the incoming record's field and the
accumulator's field. -/
def reconcileStep (acc : reconcileResult) (d : allGather3Record) : reconcileResult :=
  { nChannels := min d.nChannels acc.nChannels
    tree := { acc.tree with
      sameChannels := min d.tree.sameChannels acc.tree.sameChannels
      speedIntra := min d.tree.speedIntra acc.tree.speedIntra
      speedInter := min d.tree.speedInter acc.tree.speedInter
      typeIntra := min d.tree.typeIntra acc.tree.typeIntra
      typeInter := min d.tree.typeInter acc.tree.typeInter }
    ring := { acc.ring with
      sameChannels := min d.ring.sameChannels acc.ring.sameChannels
      speedIntra := min d.ring.speedIntra acc.ring.speedIntra
      speedInter := min d.ring.speedInter acc.ring.speedInter
      typeIntra := min d.ring.typeIntra acc.ring.typeIntra
      typeInter := min d.ring.typeInter acc.ring.typeInter }
    collNet := { acc.collNet with
      sameChannels := min d.collNet.sameChannels acc.collNet.sameChannels
      speedIntra := min d.collNet.speedIntra acc.collNet.speedIntra
      speedInter := min d.collNet.speedInter acc.collNet.speedInter
      typeIntra := min d.collNet.typeIntra acc.collNet.typeIntra
      typeInter := min d.collNet.typeInter acc.collNet.typeInter } }

/-- The accumulator with which rank `rank` enters the loop: its own record
(`comm->nChannels`, `treeGraph`, `ringGraph`, `collNetGraph` hold exactly
the values the rank published, `init.cc:940-959`). -/
def reconcileInit (d : allGather3Record) : reconcileResult :=
  { nChannels := d.nChannels, tree := d.tree, ring := d.ring, collNet := d.collNet }

/-- The whole reconciliation loop as run by rank `rank` on the gathered
array (`init.cc:988-1008`). -/
def reconcileGraphs (data : List allGather3Record) (rank : Nat) : reconcileResult :=
  data.foldl reconcileStep (reconcileInit (data.getD rank ag3Zero))

/-- `m` is the minimum of the list `l`: a member that bounds every member
below. -/
def isMinOf (m : Int) (l : List Int) : Prop := m ∈ l ∧ ∀ x ∈ l, m ≤ x

instance (m : Int) (l : List Int) : Decidable (isMinOf m l) := by
  unfold isMinOf
  infer_instance

theorem isMinOf_unique {m m' : Int} {l : List Int}
    (h : isMinOf m l) (h' : isMinOf m' l) : m = m' :=
  le_antisymm (h.2 m' h'.1) (h'.2 m h.1)

/-- Scalar projection of the reconciliation loop: fold `min` of a projected
field over the list. -/
def foldMin (f : allGather3Record → Int) (l : List allGather3Record) (a : Int) : Int :=
  l.foldl (fun m d => min (f d) m) a

theorem foldMin_le_init (f : allGather3Record → Int) (l : List allGather3Record) :
    ∀ a : Int, foldMin f l a ≤ a := by
  induction l with
  | nil => intro a; exact le_refl a
  | cons d l ih =>
    intro a
    exact le_trans (ih (min (f d) a)) (min_le_right _ _)

theorem foldMin_le_mem (f : allGather3Record → Int) (l : List allGather3Record) :
    ∀ (a : Int) (d : allGather3Record), d ∈ l → foldMin f l a ≤ f d := by
  induction l with
  | nil => intro a d hd; cases hd
  | cons x l ih =>
    intro a d hd
    rcases List.mem_cons.mp hd with h | h
    · subst h
      exact le_trans (foldMin_le_init f l _) (min_le_left _ _)
    · exact ih _ d h

theorem foldMin_eq_init_or_mem (f : allGather3Record → Int) (l : List allGather3Record) :
    ∀ a : Int, foldMin f l a = a ∨ ∃ d ∈ l, foldMin f l a = f d := by
  induction l with
  | nil => intro a; exact Or.inl rfl
  | cons x l ih =>
    intro a
    rcases ih (min (f x) a) with h | ⟨d, hd, he⟩
    · rcases min_cases (f x) a with ⟨hm, _⟩ | ⟨hm, _⟩
      · exact Or.inr ⟨x, List.mem_cons_self x l, h.trans hm⟩
      · exact Or.inl (h.trans hm)
    · exact Or.inr ⟨d, List.mem_cons_of_mem x hd, he⟩

theorem foldMin_isMin (f : allGather3Record → Int) (l : List allGather3Record)
    (d0 : allGather3Record) (h : d0 ∈ l) : isMinOf (foldMin f l (f d0)) (l.map f) := by
  constructor
  · rcases foldMin_eq_init_or_mem f l (f d0) with h1 | ⟨d, hd, he⟩
    · rw [h1]
      exact List.mem_map_of_mem f h
    · rw [he]
      exact List.mem_map_of_mem f hd
  · intro x hx
    rw [List.mem_map] at hx
    obtain ⟨d, hd, rfl⟩ := hx
    exact foldMin_le_mem f l _ d hd

theorem reconcile_foldl_proj (f : allGather3Record → Int) (g : reconcileResult → Int)
    (hstep : ∀ acc d, g (reconcileStep acc d) = min (f d) (g acc)) :
    ∀ (l : List allGather3Record) (acc : reconcileResult),
      g (l.foldl reconcileStep acc) = foldMin f l (g acc) := by
  intro l
  induction l with
  | nil => intro acc; rfl
  | cons d l ih =>
    intro acc
    show g (l.foldl reconcileStep (reconcileStep acc d)) = foldMin f l (min (f d) (g acc))
    rw [ih, hstep]

theorem reconcileField_isMin (f : allGather3Record → Int) (g : reconcileResult → Int)
    (hstep : ∀ acc d, g (reconcileStep acc d) = min (f d) (g acc))
    (hinit : ∀ d, g (reconcileInit d) = f d)
    (data : List allGather3Record) (r : Nat) (hr : r < data.length) :
    isMinOf (g (reconcileGraphs data r)) (data.map f) := by
  unfold reconcileGraphs
  rw [reconcile_foldl_proj f g hstep, hinit]
  refine foldMin_isMin f data _ ?_
  rw [List.getD_eq_getElem _ _ hr]
  exact List.getElem_mem hr

theorem reconcileField_eq (f : allGather3Record → Int) (g : reconcileResult → Int)
    (hstep : ∀ acc d, g (reconcileStep acc d) = min (f d) (g acc))
    (hinit : ∀ d, g (reconcileInit d) = f d)
    (data : List allGather3Record) (r r' : Nat)
    (hr : r < data.length) (hr' : r' < data.length) :
    g (reconcileGraphs data r) = g (reconcileGraphs data r') :=
  isMinOf_unique (reconcileField_isMin f g hstep hinit data r hr)
    (reconcileField_isMin f g hstep hinit data r' hr')

/-- The sixteen reconciled numeric fields of the loop, as a list: the channel
count plus, per graph (tree, ring, collNet), the same-channels flag, the two
speeds and the two link types. -/
def reconMins (x : reconcileResult) : List Int :=
  [x.nChannels,
   x.tree.sameChannels, x.tree.speedIntra, x.tree.speedInter, x.tree.typeIntra, x.tree.typeInter,
   x.ring.sameChannels, x.ring.speedIntra, x.ring.speedInter, x.ring.typeIntra, x.ring.typeInter,
   x.collNet.sameChannels, x.collNet.speedIntra, x.collNet.speedInter,
   x.collNet.typeIntra, x.collNet.typeInter]

/-- The same sixteen fields of one incoming AllGather3 record. -/
def ag3Mins (d : allGather3Record) : List Int :=
  [d.nChannels,
   d.tree.sameChannels, d.tree.speedIntra, d.tree.speedInter, d.tree.typeIntra, d.tree.typeInter,
   d.ring.sameChannels, d.ring.speedIntra, d.ring.speedInter, d.ring.typeIntra, d.ring.typeInter,
   d.collNet.sameChannels, d.collNet.speedIntra, d.collNet.speedInter,
   d.collNet.typeIntra, d.collNet.typeInter]

/-- C1, stated: each of the sixteen reconciled fields computed by rank `r`
is the elementwise minimum of that field over all ranks' gathered records,
and rank `r'` computes the identical sixteen values. -/
def ReconcileClaim (data : List allGather3Record) (r r' : Nat) : Prop :=
  (∀ k : Fin 16, isMinOf ((reconMins (reconcileGraphs data r)).getD k.val 0)
      (data.map (fun d => (ag3Mins d).getD k.val 0))) ∧
  reconMins (reconcileGraphs data r) = reconMins (reconcileGraphs data r')

/-- C1: for every gathered AllGather3 array, the reconciled channel count and
every reconciled numeric graph attribute (same-channels flag, intra/inter
speed, intra/inter link type of each of the three graphs) equals the
elementwise minimum of that field over all ranks' records, and any two ranks
compute identical reconciled values. -/
theorem reconcile_is_elementwise_min (data : List allGather3Record) (r r' : Nat)
    (hr : r < data.length) (hr' : r' < data.length) : ReconcileClaim data r r' := by
  have hmin : ∀ s : Nat, ∀ f : allGather3Record → Int, ∀ g : reconcileResult → Int,
      (∀ acc d, g (reconcileStep acc d) = min (f d) (g acc)) →
      (∀ d, g (reconcileInit d) = f d) → s < data.length →
      isMinOf (g (reconcileGraphs data s)) (data.map f) := by
    intro s f g hstep hinit hs
    exact reconcileField_isMin f g hstep hinit data s hs
  constructor
  · intro k
    fin_cases k
    · exact hmin r (fun d => d.nChannels) (fun x => x.nChannels)
        (fun acc d => rfl) (fun d => rfl) hr
    · exact hmin r (fun d => d.tree.sameChannels) (fun x => x.tree.sameChannels)
        (fun acc d => rfl) (fun d => rfl) hr
    · exact hmin r (fun d => d.tree.speedIntra) (fun x => x.tree.speedIntra)
        (fun acc d => rfl) (fun d => rfl) hr
    · exact hmin r (fun d => d.tree.speedInter) (fun x => x.tree.speedInter)
        (fun acc d => rfl) (fun d => rfl) hr
    · exact hmin r (fun d => d.tree.typeIntra) (fun x => x.tree.typeIntra)
        (fun acc d => rfl) (fun d => rfl) hr
    · exact hmin r (fun d => d.tree.typeInter) (fun x => x.tree.typeInter)
        (fun acc d => rfl) (fun d => rfl) hr
    · exact hmin r (fun d => d.ring.sameChannels) (fun x => x.ring.sameChannels)
        (fun acc d => rfl) (fun d => rfl) hr
    · exact hmin r (fun d => d.ring.speedIntra) (fun x => x.ring.speedIntra)
        (fun acc d => rfl) (fun d => rfl) hr
    · exact hmin r (fun d => d.ring.speedInter) (fun x => x.ring.speedInter)
        (fun acc d => rfl) (fun d => rfl) hr
    · exact hmin r (fun d => d.ring.typeIntra) (fun x => x.ring.typeIntra)
        (fun acc d => rfl) (fun d => rfl) hr
    · exact hmin r (fun d => d.ring.typeInter) (fun x => x.ring.typeInter)
        (fun acc d => rfl) (fun d => rfl) hr
    · exact hmin r (fun d => d.collNet.sameChannels) (fun x => x.collNet.sameChannels)
        (fun acc d => rfl) (fun d => rfl) hr
    · exact hmin r (fun d => d.collNet.speedIntra) (fun x => x.collNet.speedIntra)
        (fun acc d => rfl) (fun d => rfl) hr
    · exact hmin r (fun d => d.collNet.speedInter) (fun x => x.collNet.speedInter)
        (fun acc d => rfl) (fun d => rfl) hr
    · exact hmin r (fun d => d.collNet.typeIntra) (fun x => x.collNet.typeIntra)
        (fun acc d => rfl) (fun d => rfl) hr
    · exact hmin r (fun d => d.collNet.typeInter) (fun x => x.collNet.typeInter)
        (fun acc d => rfl) (fun d => rfl) hr
  · have heq : ∀ f : allGather3Record → Int, ∀ g : reconcileResult → Int,
        (∀ acc d, g (reconcileStep acc d) = min (f d) (g acc)) →
        (∀ d, g (reconcileInit d) = f d) →
        g (reconcileGraphs data r) = g (reconcileGraphs data r') := by
      intro f g hstep hinit
      exact reconcileField_eq f g hstep hinit data r r' hr hr'
    unfold reconMins
    rw [heq (fun d => d.nChannels) (fun x => x.nChannels) (fun acc d => rfl) (fun d => rfl),
      heq (fun d => d.tree.sameChannels) (fun x => x.tree.sameChannels) (fun acc d => rfl) (fun d => rfl),
      heq (fun d => d.tree.speedIntra) (fun x => x.tree.speedIntra) (fun acc d => rfl) (fun d => rfl),
      heq (fun d => d.tree.speedInter) (fun x => x.tree.speedInter) (fun acc d => rfl) (fun d => rfl),
      heq (fun d => d.tree.typeIntra) (fun x => x.tree.typeIntra) (fun acc d => rfl) (fun d => rfl),
      heq (fun d => d.tree.typeInter) (fun x => x.tree.typeInter) (fun acc d => rfl) (fun d => rfl),
      heq (fun d => d.ring.sameChannels) (fun x => x.ring.sameChannels) (fun acc d => rfl) (fun d => rfl),
      heq (fun d => d.ring.speedIntra) (fun x => x.ring.speedIntra) (fun acc d => rfl) (fun d => rfl),
      heq (fun d => d.ring.speedInter) (fun x => x.ring.speedInter) (fun acc d => rfl) (fun d => rfl),
      heq (fun d => d.ring.typeIntra) (fun x => x.ring.typeIntra) (fun acc d => rfl) (fun d => rfl),
      heq (fun d => d.ring.typeInter) (fun x => x.ring.typeInter) (fun acc d => rfl) (fun d => rfl),
      heq (fun d => d.collNet.sameChannels) (fun x => x.collNet.sameChannels) (fun acc d => rfl) (fun d => rfl),
      heq (fun d => d.collNet.speedIntra) (fun x => x.collNet.speedIntra) (fun acc d => rfl) (fun d => rfl),
      heq (fun d => d.collNet.speedInter) (fun x => x.collNet.speedInter) (fun acc d => rfl) (fun d => rfl),
      heq (fun d => d.collNet.typeIntra) (fun x => x.collNet.typeIntra) (fun acc d => rfl) (fun d => rfl),
      heq (fun d => d.collNet.typeInter) (fun x => x.collNet.typeInter) (fun acc d => rfl) (fun d => rfl)]

/-- A concrete 2-rank AllGather3 array: the fields holding the minimum are
split between the two ranks. -/
def ag3DataW : List allGather3Record :=
  [⟨90, 4, 1, ⟨1, 1, 25, 12, 2, 3⟩, ⟨2, 0, 24, 11, 1, 2⟩, ⟨1, 1, 20, 10, 1, 1⟩, 0⟩,
   ⟨90, 3, 1, ⟨1, 0, 26, 11, 1, 4⟩, ⟨2, 1, 23, 12, 2, 1⟩, ⟨1, 0, 21, 9, 2, 2⟩, 0⟩]

/-- C1 witness: the theorem applied to `ag3DataW` with ranks 0 and 1. -/
theorem reconcile_is_elementwise_min_witness :
    (0 < ag3DataW.length ∧ 1 < ag3DataW.length) ∧ ReconcileClaim ag3DataW 0 1 :=
  ⟨⟨by decide, by decide⟩, reconcile_is_elementwise_min ag3DataW 0 1 (by decide) (by decide)⟩

/-- The node-grouping state built by the scan after AllGather3
(`init.cc:965-982`): the node count, the first rank of each node, each
node's tree pattern, and this rank's own node index (`comm->node`).
`comm` is zero-initialized by `ncclCalloc`, so the counters start at 0 and
the arrays are modelled as lists that grow as nodes are discovered. -/
structure nodeAssignment where
  nNodes : Nat
  nodesFirstRank : List Int
  nodesTreePatterns : List Int
  node : Nat
deriving DecidableEq, Repr

/-- The inner lookup loop (`init.cc:972-974`): scan the first `nNodes`
entries of `nodesFirstRank` and keep the index of the last entry equal to
`x` (`node = n` with no break), or report no match (`node == -1`). -/
def lastMatchIdx : List Int → Int → Option Nat
  | [], _ => none
  | y :: l, x =>
    match lastMatchIdx l x with
    | some n => some (n + 1)
    | none => if y = x then some 0 else none

theorem lastMatchIdx_some {l : List Int} {x : Int} {n : Nat}
    (h : lastMatchIdx l x = some n) : n < l.length ∧ l.getD n 0 = x := by
  induction l generalizing n with
  | nil => cases h
  | cons y l ih =>
    unfold lastMatchIdx at h
    cases hm : lastMatchIdx l x with
    | some m =>
      simp only [hm] at h
      injection h with h
      subst h
      obtain ⟨hlt, hget⟩ := ih hm
      refine ⟨Nat.succ_lt_succ hlt, ?_⟩
      simpa using hget
    | none =>
      simp only [hm] at h
      by_cases hy : y = x
      · rw [if_pos hy] at h
        injection h with h
        subst h
        exact ⟨Nat.succ_pos _, hy⟩
      · rw [if_neg hy] at h
        exact Option.noConfusion h

/-- One iteration of the node-grouping scan for gathered record `d` at rank
index `i` (`init.cc:969-982`): a first-ring-rank value already recorded
reuses its node index, an unseen value allocates the next node index and
records the value and the record's tree pattern; the scanning rank
additionally stores the found node index as its own (`comm->node`) when `i`
is its rank. -/
def nodeScanStep (rank i : Nat) (st : nodeAssignment) (d : allGather3Record) : nodeAssignment :=
  match lastMatchIdx st.nodesFirstRank d.ringRecv0 with
  | some n => { st with node := if i = rank then n else st.node }
  | none =>
    { nNodes := st.nNodes + 1
      nodesFirstRank := st.nodesFirstRank ++ [d.ringRecv0]
      nodesTreePatterns := st.nodesTreePatterns ++ [d.tree.pattern]
      node := if i = rank then st.nNodes else st.node }

/-- The scan over the gathered records in ascending rank order, starting at
rank index `i`. -/
def nodeScan (rank : Nat) : Nat → nodeAssignment → List allGather3Record → nodeAssignment
  | _, st, [] => st
  | i, st, d :: l => nodeScan rank (i + 1) (nodeScanStep rank i st d) l

/-- The whole node-grouping computation of rank `rank` (`init.cc:965-982`). -/
def computeNodes (data : List allGather3Record) (rank : Nat) : nodeAssignment :=
  nodeScan rank 0 ⟨0, [], [], 0⟩ data

theorem nodeScanStep_shared {st st' : nodeAssignment} (r r' i i' : Nat)
    (d : allGather3Record) (h1 : st.nNodes = st'.nNodes)
    (h2 : st.nodesFirstRank = st'.nodesFirstRank)
    (h3 : st.nodesTreePatterns = st'.nodesTreePatterns) :
    (nodeScanStep r i st d).nNodes = (nodeScanStep r' i' st' d).nNodes ∧
    (nodeScanStep r i st d).nodesFirstRank = (nodeScanStep r' i' st' d).nodesFirstRank ∧
    (nodeScanStep r i st d).nodesTreePatterns = (nodeScanStep r' i' st' d).nodesTreePatterns := by
  unfold nodeScanStep
  rw [h2]
  cases lastMatchIdx st'.nodesFirstRank d.ringRecv0 with
  | some n => exact ⟨by simp [h1], by simp [h2], by simp [h3]⟩
  | none => exact ⟨by simp [h1], by simp [h2], by simp [h3]⟩

theorem nodeScan_shared (l : List allGather3Record) :
    ∀ (r r' i i' : Nat) (st st' : nodeAssignment),
    st.nNodes = st'.nNodes → st.nodesFirstRank = st'.nodesFirstRank →
    st.nodesTreePatterns = st'.nodesTreePatterns →
    (nodeScan r i st l).nNodes = (nodeScan r' i' st' l).nNodes ∧
    (nodeScan r i st l).nodesFirstRank = (nodeScan r' i' st' l).nodesFirstRank ∧
    (nodeScan r i st l).nodesTreePatterns = (nodeScan r' i' st' l).nodesTreePatterns := by
  induction l with
  | nil => intro r r' i i' st st' h1 h2 h3; exact ⟨h1, h2, h3⟩
  | cons d l ih =>
    intro r r' i i' st st' h1 h2 h3
    obtain ⟨g1, g2, g3⟩ := nodeScanStep_shared r r' i i' d h1 h2 h3
    exact ih r r' (i + 1) (i' + 1) _ _ g1 g2 g3

/-- The length invariant of the scan state. -/
def nodeInv (st : nodeAssignment) : Prop :=
  st.nNodes = st.nodesFirstRank.length

/-- Consistency of an own-node assignment with the recorded value `v`. -/
def nodeConsistent (st : nodeAssignment) (v : Int) : Prop :=
  st.node < st.nNodes ∧ st.nodesFirstRank.getD st.node 0 = v

theorem nodeScanStep_inv {st : nodeAssignment} (r i : Nat) (d : allGather3Record)
    (h : nodeInv st) : nodeInv (nodeScanStep r i st d) := by
  unfold nodeInv nodeScanStep at *
  cases lastMatchIdx st.nodesFirstRank d.ringRecv0 with
  | some n => exact h
  | none => simpa using h

theorem getD_append_singleton (l : List Int) (v : Int) :
    (l ++ [v]).getD l.length 0 = v := by
  rw [List.getD_append_right l [v] 0 l.length (le_refl _), Nat.sub_self]
  rfl

theorem nodeScanStep_at_rank {st : nodeAssignment} (r : Nat) (d : allGather3Record)
    (h : nodeInv st) : nodeConsistent (nodeScanStep r r st d) d.ringRecv0 := by
  unfold nodeConsistent nodeScanStep
  cases hm : lastMatchIdx st.nodesFirstRank d.ringRecv0 with
  | some n =>
    obtain ⟨hlt, hget⟩ := lastMatchIdx_some hm
    simp only [if_pos rfl]
    exact ⟨by rw [h]; exact hlt, hget⟩
  | none =>
    simp only [if_pos rfl]
    refine ⟨Nat.lt_succ_self _, ?_⟩
    show (st.nodesFirstRank ++ [d.ringRecv0]).getD st.nNodes 0 = d.ringRecv0
    rw [h]
    exact getD_append_singleton _ _

theorem nodeScanStep_off_rank {st : nodeAssignment} {v : Int} (r i : Nat)
    (d : allGather3Record) (hne : i ≠ r) (hinv : nodeInv st)
    (h : nodeConsistent st v) : nodeConsistent (nodeScanStep r i st d) v := by
  unfold nodeConsistent nodeScanStep at *
  cases lastMatchIdx st.nodesFirstRank d.ringRecv0 with
  | some n =>
    simp only [if_neg hne]
    exact h
  | none =>
    simp only [if_neg hne]
    refine ⟨Nat.lt_succ_of_lt h.1, ?_⟩
    show (st.nodesFirstRank ++ [d.ringRecv0]).getD st.node 0 = v
    rw [List.getD_append _ _ _ _ (by rw [← hinv]; exact h.1)]
    exact h.2

theorem nodeScan_off_rank {v : Int} (r : Nat) (l : List allGather3Record) :
    ∀ (i : Nat) (st : nodeAssignment), r < i → nodeInv st → nodeConsistent st v →
    nodeConsistent (nodeScan r i st l) v := by
  induction l with
  | nil => intro i st _ _ h; exact h
  | cons d l ih =>
    intro i st hlt hinv h
    exact ih (i + 1) _ (Nat.lt_succ_of_lt hlt)
      (nodeScanStep_inv r i d hinv)
      (nodeScanStep_off_rank r i d (by omega) hinv h)

theorem nodeScan_consistent (r : Nat) (l : List allGather3Record) :
    ∀ (i : Nat) (st : nodeAssignment), nodeInv st → i ≤ r → r - i < l.length →
    nodeConsistent (nodeScan r i st l) ((l.getD (r - i) ag3Zero).ringRecv0) := by
  induction l with
  | nil =>
    intro i st _ _ hlt
    cases hlt
  | cons d l ih =>
    intro i st hinv hle hlt
    by_cases hi : i = r
    · subst hi
      rw [Nat.sub_self]
      show nodeConsistent (nodeScan i (i + 1) (nodeScanStep i i st d) l) d.ringRecv0
      exact nodeScan_off_rank i l (i + 1) _ (Nat.lt_succ_self i)
        (nodeScanStep_inv i i d hinv) (nodeScanStep_at_rank i d hinv)
    · have hlt2 : i < r := lt_of_le_of_ne hle hi
      have hsub : r - i = (r - (i + 1)) + 1 := by omega
      rw [hsub]
      show nodeConsistent (nodeScan r (i + 1) (nodeScanStep r i st d) l)
        ((l.getD (r - (i + 1)) ag3Zero).ringRecv0)
      exact ih (i + 1) _ (nodeScanStep_inv r i d hinv) (by omega) (by simp at hlt; omega)

/-- C4, stated: two ranks given the same gathered array compute identical
node counts, first-rank-per-node lists and per-node tree patterns, and the
scanning rank's own node index points inside the common assignment at an
entry recording its own reported first-ring-rank value. -/
def NodeClaim (data : List allGather3Record) (r r' : Nat) : Prop :=
  (computeNodes data r).nNodes = (computeNodes data r').nNodes ∧
  (computeNodes data r).nodesFirstRank = (computeNodes data r').nodesFirstRank ∧
  (computeNodes data r).nodesTreePatterns = (computeNodes data r').nodesTreePatterns ∧
  (computeNodes data r).node < (computeNodes data r).nNodes ∧
  (computeNodes data r).nodesFirstRank.getD (computeNodes data r).node 0 =
    (data.getD r ag3Zero).ringRecv0

instance (data : List allGather3Record) (r r' : Nat) : Decidable (NodeClaim data r r') := by
  unfold NodeClaim
  infer_instance

/-- C4: the node-grouping computation after AllGather3 is a deterministic
pure function of the gathered array: the node count, first-rank-per-node
list and per-node tree-pattern list are independent of which rank runs the
scan, and the scanning rank's own node index is consistent with that common
assignment. -/
theorem nodeGrouping_deterministic (data : List allGather3Record) (r r' : Nat)
    (hr : r < data.length) : NodeClaim data r r' := by
  obtain ⟨g1, g2, g3⟩ :=
    nodeScan_shared data r r' 0 0 ⟨0, [], [], 0⟩ ⟨0, [], [], 0⟩ rfl rfl rfl
  have hcons := nodeScan_consistent r data 0 ⟨0, [], [], 0⟩ rfl (Nat.zero_le r)
    (by simpa using hr)
  exact ⟨g1, g2, g3, hcons.1, hcons.2⟩

/-- A concrete 4-rank gathered array spanning two nodes: ranks 0 and 2 report
first-ring-rank 0, ranks 1 and 3 report first-ring-rank 1. -/
def nodeDataW : List allGather3Record :=
  [⟨90, 2, 1, ⟨4, 1, 20, 10, 1, 1⟩, ⟨1, 1, 20, 10, 1, 1⟩, ⟨4, 1, 20, 10, 1, 1⟩, 0⟩,
   ⟨90, 2, 1, ⟨4, 1, 20, 10, 1, 1⟩, ⟨1, 1, 20, 10, 1, 1⟩, ⟨4, 1, 20, 10, 1, 1⟩, 1⟩,
   ⟨90, 2, 1, ⟨4, 1, 20, 10, 1, 1⟩, ⟨1, 1, 20, 10, 1, 1⟩, ⟨4, 1, 20, 10, 1, 1⟩, 0⟩,
   ⟨90, 2, 1, ⟨4, 1, 20, 10, 1, 1⟩, ⟨1, 1, 20, 10, 1, 1⟩, ⟨4, 1, 20, 10, 1, 1⟩, 1⟩]

/-- C4 witness: the theorem applied to `nodeDataW` with scanning ranks 2
and 3. -/
theorem nodeGrouping_deterministic_witness :
    2 < nodeDataW.length ∧ NodeClaim nodeDataW 2 3 :=
  ⟨by decide, nodeGrouping_deterministic nodeDataW 2 3 (by decide)⟩

/-- The compaction loop body iterated `i` times (`init.cc:1029`): iteration
`j` copies the whole channel struct at slot `nChannelsOrig + j` into slot
`nChannels + j` (`memcpy` of one `struct ncclChannel`).  The channel array
is modelled as a total map from slot index to channel contents `α`. -/
def moveChannelsLoop {α : Type} (nChannelsOrig nChannels : Nat) (ch : Nat → α) :
    Nat → Nat → α
  | 0 => ch
  | i + 1 =>
    let c := moveChannelsLoop nChannelsOrig nChannels ch i
    Function.update c (nChannels + i) (c (nChannelsOrig + i))

/-- The channel compaction of `initTransportsRank` (`init.cc:1026-1030`):
when the reconciled count `nChannels` dropped below the pre-reconciliation
count `nChannelsOrig`, move the duplicated channels down; otherwise the
array is untouched. -/
def compactChannels {α : Type} (nChannelsOrig nChannels : Nat) (ch : Nat → α) : Nat → α :=
  if nChannels < nChannelsOrig then moveChannelsLoop nChannelsOrig nChannels ch nChannels
  else ch

theorem moveChannelsLoop_untouched {α : Type} (C0 C1 : Nat) (ch : Nat → α) :
    ∀ (i k : Nat), k < C1 ∨ C1 + i ≤ k → moveChannelsLoop C0 C1 ch i k = ch k := by
  intro i
  induction i with
  | zero => intro k _; rfl
  | succ i ih =>
    intro k hk
    show Function.update (moveChannelsLoop C0 C1 ch i) (C1 + i)
      (moveChannelsLoop C0 C1 ch i (C0 + i)) k = ch k
    have hne : k ≠ C1 + i := by omega
    rw [Function.update_noteq hne]
    exact ih k (by omega)

theorem moveChannelsLoop_written {α : Type} (C0 C1 : Nat) (ch : Nat → α) (h : C1 < C0) :
    ∀ (i j : Nat), j < i → moveChannelsLoop C0 C1 ch i (C1 + j) = ch (C0 + j) := by
  intro i
  induction i with
  | zero => intro j hj; cases hj
  | succ i ih =>
    intro j hj
    show Function.update (moveChannelsLoop C0 C1 ch i) (C1 + i)
      (moveChannelsLoop C0 C1 ch i (C0 + i)) (C1 + j) = ch (C0 + j)
    by_cases hji : j = i
    · rw [hji, Function.update_same]
      exact moveChannelsLoop_untouched C0 C1 ch i (C0 + i) (Or.inr (by omega))
    · rw [Function.update_noteq (by omega)]
      exact ih j (by omega)

/-- C5, stated: when the channel count shrinks from `C0` to `C1 < C0`,
compaction leaves slots `[0, C1)` unchanged and makes slot `C1 + i` hold
exactly the pre-compaction contents of slot `C0 + i` for every `i < C1`, so
no surviving slot draws its contents from a discarded one. -/
def CompactClaim {α : Type} (C0 C1 : Nat) (ch : Nat → α) : Prop :=
  (∀ i, i < C1 → compactChannels C0 C1 ch i = ch i) ∧
  (∀ i, i < C1 → compactChannels C0 C1 ch (C1 + i) = ch (C0 + i))

/-- C5: if reconciliation reduces the channel count from `C0` to `C1 < C0`,
the compaction loop moves the duplicated channels down: slots `[C1, 2*C1)`
receive exactly the contents previously at `[C0, C0 + C1)` while slots
`[0, C1)` are unchanged. -/
theorem compactChannels_spec {α : Type} (C0 C1 : Nat) (ch : Nat → α) (h : C1 < C0) :
    CompactClaim C0 C1 ch := by
  constructor
  · intro i hi
    unfold compactChannels
    rw [if_pos h]
    exact moveChannelsLoop_untouched C0 C1 ch C1 i (Or.inl hi)
  · intro i hi
    unfold compactChannels
    rw [if_pos h]
    exact moveChannelsLoop_written C0 C1 ch h C1 i hi

/-- C5 witness: the theorem applied to the identity channel array with
`C0 = 3`, `C1 = 2`; slot 2 ends up holding old slot 3 and slot 3 old
slot 4. -/
theorem compactChannels_spec_witness :
    (2 < 3 ∧ CompactClaim 3 2 (fun n : Nat => n)) ∧
    compactChannels 3 2 (fun n : Nat => n) 2 = 3 ∧
    compactChannels 3 2 (fun n : Nat => n) 3 = 4 ∧
    compactChannels 3 2 (fun n : Nat => n) 0 = 0 ∧
    compactChannels 3 2 (fun n : Nat => n) 1 = 1 :=
  ⟨⟨by decide, compactChannels_spec 3 2 (fun n : Nat => n) (by decide)⟩,
    by rfl, by rfl, by rfl, by rfl⟩

/-- The shift-search loop of `setupChannel` (`init.cc:504-509`): the first
index at which `ringRanks` holds `rank`, or the array length when `rank`
never occurs. -/
def findShift (rank : Int) : List Int → Nat
  | [] => 0
  | x :: xs => if x = rank then 0 else findShift rank xs + 1

/-- The ring reordering of `setupChannel` (`init.cc:498-514`): channel
`userRanks[i] = ringRanks[(i + shift) % nranks]`, rotating the published
ring order to start at the local rank. -/
def setupChannelUserRanks (nranks : Nat) (rank : Int) (ringRanks : List Int) : List Int :=
  (List.range nranks).map (fun i => ringRanks.getD ((i + findShift rank ringRanks) % nranks) 0)

theorem findShift_eq {rank : Int} : ∀ (l : List Int) (s : Nat), s < l.length →
    l.getD s 0 = rank → (∀ j, j < s → l.getD j 0 ≠ rank) → findShift rank l = s := by
  intro l
  induction l with
  | nil => intro s hs; cases hs
  | cons x xs ih =>
    intro s hs hget hbefore
    cases s with
    | zero =>
      unfold findShift
      rw [if_pos]
      simpa using hget
    | succ t =>
      have hx : x ≠ rank := by
        have := hbefore 0 (Nat.succ_pos t)
        simpa using this
      unfold findShift
      rw [if_neg hx]
      have ht : findShift rank xs = t := by
        refine ih t (by simpa using hs) (by simpa using hget) ?_
        intro j hj
        have := hbefore (j + 1) (Nat.succ_lt_succ hj)
        simpa using this
      rw [ht]

/-- C6, stated: the channel's `userRanks` is the rotation of `ringRanks`
starting at the local rank's position `s`: entry `i` is
`ringRanks[(i + s) % nranks]`, and entry 0 is the local rank itself. -/
def RingRotationClaim (rank : Int) (ringRanks : List Int) (s : Nat) : Prop :=
  (∀ i, i < ringRanks.length →
    (setupChannelUserRanks ringRanks.length rank ringRanks).getD i 0 =
      ringRanks.getD ((i + s) % ringRanks.length) 0) ∧
  (setupChannelUserRanks ringRanks.length rank ringRanks).getD 0 0 = rank

/-- C6: given a duplicate-free published ring order in which the local rank
appears at position `s`, `setupChannel` fills `userRanks` with the rotation
of `ringRanks` starting at the local rank: `userRanks[i] =
ringRanks[(i + s) mod nranks]` for all `i`, and `userRanks[0] = rank`. -/
theorem setupChannel_rotation (rank : Int) (ringRanks : List Int) (s : Nat)
    (hnd : ringRanks.Nodup) (hs : s < ringRanks.length)
    (hget : ringRanks.getD s 0 = rank) : RingRotationClaim rank ringRanks s := by
  have hshift : findShift rank ringRanks = s := by
    refine findShift_eq ringRanks s hs hget ?_
    intro j hj hjget
    have hjlen : j < ringRanks.length := lt_trans hj hs
    have hgj : ringRanks.get ⟨j, hjlen⟩ = rank := by
      rw [List.get_eq_getElem, ← List.getD_eq_getElem ringRanks 0 hjlen]
      exact hjget
    have hgs : ringRanks.get ⟨s, hs⟩ = rank := by
      rw [List.get_eq_getElem, ← List.getD_eq_getElem ringRanks 0 hs]
      exact hget
    have hfin : (⟨j, hjlen⟩ : Fin ringRanks.length) = ⟨s, hs⟩ :=
      List.Nodup.get_inj_iff hnd |>.mp (hgj.trans hgs.symm)
    have hjs : j = s := congrArg Fin.val hfin
    omega
  have hmain : ∀ i, i < ringRanks.length →
      (setupChannelUserRanks ringRanks.length rank ringRanks).getD i 0 =
        ringRanks.getD ((i + s) % ringRanks.length) 0 := by
    intro i hi
    unfold setupChannelUserRanks
    rw [hshift]
    rw [List.getD_eq_getElem _ _ (by simpa using hi)]
    rw [List.getElem_map]
    rw [List.getElem_range]
  refine ⟨hmain, ?_⟩
  have h0 : 0 < ringRanks.length := lt_of_le_of_lt (Nat.zero_le s) hs
  rw [hmain 0 h0]
  rw [Nat.zero_add, Nat.mod_eq_of_lt hs]
  exact hget

/-- C6 witness: the 4-rank ring `[0, 1, 2, 3]` seen from rank 2: the rotated
membership starts `[2, 3, 0, 1]`. -/
theorem setupChannel_rotation_witness :
    (([0, 1, 2, 3] : List Int).Nodup ∧ 2 < ([0, 1, 2, 3] : List Int).length ∧
      ([0, 1, 2, 3] : List Int).getD 2 0 = 2) ∧
    RingRotationClaim 2 [0, 1, 2, 3] 2 ∧
    setupChannelUserRanks 4 2 [0, 1, 2, 3] = [2, 3, 0, 1] :=
  ⟨⟨by decide, by decide, by decide⟩,
    setupChannel_rotation 2 [0, 1, 2, 3] 2 (by decide) (by decide) (by decide),
    by rfl⟩

/-- One direction of a channel edge (`struct ncclConnector`): the transport
function table (`transportComm`, modelled as a presence flag) and the
transport-specific resource handle (`transportResources`, a NULL-able
pointer). -/
structure ncclConnector where
  transportComm : Bool
  transportResources : Option Nat
deriving DecidableEq, Repr

/-- A channel, restricted to the parts the embedded claims read: the
collective-network peer slot `channel->peers[nranks]` with its send and
recv connectors (`init.cc:721-726`). -/
structure ncclChannel where
  collNetSend : ncclConnector
  collNetRecv : ncclConnector
deriving DecidableEq, Repr

/-- The communicator fields touched by the embedded lifecycle code:
identity (`rank`, `nRanks`, `cudaDev`, `busId`), the shared abort flag, the
sticky fatal error, collective-network support, the channel array, and the
bootstrap handle (presence flag). -/
structure ncclComm where
  rank : Int
  nRanks : Int
  cudaDev : Int
  busId : Int
  abortFlag : Nat
  fatalError : ncclResult
  collNetSupport : Int
  channels : List ncclChannel
  bootstrapOpen : Bool
deriving DecidableEq, Repr

/-- The per-channel collective-network release (`init.cc:720-727`): the
conditional `free` of each non-NULL resource followed by unconditionally
nulling both resource pointers (the "avoid double free" lines). -/
def clearCollNetResources (ch : ncclChannel) : ncclChannel :=
  { collNetSend := { ch.collNetSend with transportResources := none }
    collNetRecv := { ch.collNetRecv with transportResources := none } }

/-- `checkCollNetSetup` (`init.cc:703-734`): rank `rank` contributed its
local failure flag to `allGatherFailures` before the final AllGather; after
the exchange each rank scans the gathered flags, and any nonzero flag
forces the failure path (release all collective-network resources, support
:= 0); otherwise support := 1. -/
def checkCollNetSetupFailFlag (collNetSetupFail : Int) (allGatherFailures : List Int) : Int :=
  if allGatherFailures.any (fun x => x != 0) then 1 else collNetSetupFail

def checkCollNetSetup (comm : ncclComm) (collNetSetupFail : Int)
    (allGatherFailures : List Int) : ncclComm :=
  if checkCollNetSetupFailFlag collNetSetupFail allGatherFailures ≠ 0 then
    { comm with channels := comm.channels.map clearCollNetResources, collNetSupport := 0 }
  else
    { comm with collNetSupport := 1 }

theorem any_ne_zero_iff (flags : List Int) :
    flags.any (fun x => x != 0) = true ↔ ∃ j, j < flags.length ∧ flags.getD j 0 ≠ 0 := by
  rw [List.any_eq_true]
  constructor
  · intro ⟨x, hx, hne⟩
    rw [bne_iff_ne] at hne
    obtain ⟨j, hj, hget⟩ := List.mem_iff_getElem.mp hx
    exact ⟨j, hj, by rw [List.getD_eq_getElem _ _ hj, hget]; exact hne⟩
  · intro ⟨j, hj, hne⟩
    refine ⟨flags.getD j 0, ?_, bne_iff_ne.mpr hne⟩
    rw [List.getD_eq_getElem _ _ hj]
    exact List.getElem_mem hj

/-- C2, stated: if any gathered per-rank failure flag is nonzero then the
rank's communicator ends with `collNetSupport = 0` and every channel's
collective-network send and recv resource pointers nulled; and
`collNetSupport` ends as 1 exactly when every gathered flag is zero. -/
def CollNetClaim (comm : ncclComm) (flags : List Int) (r : Nat) : Prop :=
  ((∃ j, j < flags.length ∧ flags.getD j 0 ≠ 0) →
    (checkCollNetSetup comm (flags.getD r 0) flags).collNetSupport = 0 ∧
    ∀ ch ∈ (checkCollNetSetup comm (flags.getD r 0) flags).channels,
      ch.collNetSend.transportResources = none ∧
      ch.collNetRecv.transportResources = none) ∧
  ((checkCollNetSetup comm (flags.getD r 0) flags).collNetSupport = 1 ↔
    ∀ j, j < flags.length → flags.getD j 0 = 0)

/-- C2: after the final AllGather of per-rank collective-network failure
flags, a single nonzero flag anywhere makes every rank disable
collective-network support and null out the collective-network peer slot's
send and recv transport resources on every channel; support is adopted
(set to 1) only when every rank's flag is zero, so no rank adopts the
collective network while another does not. -/
theorem checkCollNetSetup_allOrNothing (comm : ncclComm) (flags : List Int) (r : Nat)
    (hr : r < flags.length) : CollNetClaim comm flags r := by
  unfold CollNetClaim
  by_cases hany : flags.any (fun x => x != 0) = true
  · have hex := (any_ne_zero_iff flags).mp hany
    have hflag : checkCollNetSetupFailFlag (flags.getD r 0) flags = 1 := by
      unfold checkCollNetSetupFailFlag
      rw [if_pos hany]
    have hres : checkCollNetSetup comm (flags.getD r 0) flags =
        { comm with
            channels := comm.channels.map clearCollNetResources
            collNetSupport := 0 } := by
      unfold checkCollNetSetup
      rw [hflag, if_pos (by norm_num : (1 : Int) ≠ 0)]
    constructor
    · intro _
      rw [hres]
      refine ⟨rfl, ?_⟩
      intro ch hch
      obtain ⟨ch0, _, rfl⟩ := List.mem_map.mp hch
      exact ⟨rfl, rfl⟩
    · rw [hres]
      constructor
      · intro h0
        exact absurd h0 (by norm_num)
      · intro hall
        obtain ⟨j, hj, hne⟩ := hex
        exact absurd (hall j hj) hne
  · have hall : ∀ j, j < flags.length → flags.getD j 0 = 0 := by
      intro j hj
      by_contra hne
      exact hany ((any_ne_zero_iff flags).mpr ⟨j, hj, hne⟩)
    have hflag : checkCollNetSetupFailFlag (flags.getD r 0) flags = 0 := by
      unfold checkCollNetSetupFailFlag
      rw [if_neg hany]
      exact hall r hr
    have hres : checkCollNetSetup comm (flags.getD r 0) flags =
        { comm with collNetSupport := 1 } := by
      unfold checkCollNetSetup
      rw [hflag, if_neg (by norm_num : ¬((0 : Int) ≠ 0))]
    constructor
    · intro hex
      obtain ⟨j, hj, hne⟩ := hex
      exact absurd (hall j hj) hne
    · rw [hres]
      exact iff_of_true rfl hall

/-- C2 witness: three gathered flags with rank 1 reporting failure, checked
by rank 0 on a communicator holding one partially-built collective-network
channel. -/
theorem checkCollNetSetup_allOrNothing_witness :
    (0 : Nat) < ([0, 1, 0] : List Int).length ∧
    CollNetClaim ⟨0, 3, 0, 5, 0, ncclSuccess, 0,
      [⟨⟨true, some 7⟩, ⟨true, some 8⟩⟩], true⟩ [0, 1, 0] 0 :=
  ⟨by decide, checkCollNetSetup_allOrNothing _ [0, 1, 0] 0 (by decide)⟩

/-- `commPoison` (`init.cc:164-166`): overwrite the identity fields with the
invalid sentinel `-1`. -/
def commPoison (comm : ncclComm) : ncclComm :=
  { comm with rank := -1, cudaDev := -1, busId := -1, nRanks := -1 }

/-- `commFree` (`init.cc:269-362`): release the communicator's resources
(channels freed, bootstrap closed; the external device/host frees are
elided) and poison the identity fields before the final `free(comm)`
(`init.cc:357-360`). -/
def commFree (comm : ncclComm) : ncclComm :=
  commPoison { comm with channels := [], bootstrapOpen := false }

/-- `ncclCommDestroy` (`init.cc:1244-1262`): NULL handles succeed with no
action; a poisoned communicator (`rank == -1 || nRanks <= 0 || cudaDev ==
-1 || busId == -1`) is rejected with `ncclInvalidArgument` before any
release; otherwise teardown (`commDestroy` → `commFree`) runs.  The third
component records whether teardown (resource release) was performed. -/
def ncclCommDestroy : Option ncclComm → ncclResult × Option ncclComm × Bool
  | none => (ncclSuccess, none, false)
  | some comm =>
    if comm.rank = -1 ∨ comm.nRanks ≤ 0 ∨ comm.cudaDev = -1 ∨ comm.busId = -1 then
      (ncclInvalidArgument, some comm, false)
    else
      (ncclSuccess, some (commFree comm), true)

/-- `ncclCommAbort` (`init.cc:1264-1276`): NULL handles succeed with no
action; otherwise only the shared abort flag is stored to 1 and the call
returns success — the commented-out `commDestroy` is never run. -/
def ncclCommAbort : Option ncclComm → ncclResult × Option ncclComm
  | none => (ncclSuccess, none)
  | some comm => (ncclSuccess, some { comm with abortFlag := 1 })

/-- C7, stated: a first destroy succeeds, performs teardown, and leaves all
four identity fields poisoned to `-1`; a second destroy of the resulting
communicator returns `InvalidArgument` with no teardown and no state
change. -/
def DestroyClaim (comm : ncclComm) : Prop :=
  ncclCommDestroy (some comm) = (ncclSuccess, some (commFree comm), true) ∧
  (commFree comm).rank = -1 ∧ (commFree comm).nRanks = -1 ∧
  (commFree comm).cudaDev = -1 ∧ (commFree comm).busId = -1 ∧
  ncclCommDestroy (some (commFree comm)) = (ncclInvalidArgument, some (commFree comm), false)

/-- C7: destroying a valid communicator proceeds to teardown and poisons the
identity fields (rank, device, bus id, rank count all `-1`); a second
destroy call is detected by that sentinel and returns `InvalidArgument`
without freeing anything. -/
theorem ncclCommDestroy_double_guard (comm : ncclComm) (h1 : comm.rank ≠ -1)
    (h2 : 0 < comm.nRanks) (h3 : comm.cudaDev ≠ -1) (h4 : comm.busId ≠ -1) :
    DestroyClaim comm := by
  have hguard : ¬(comm.rank = -1 ∨ comm.nRanks ≤ 0 ∨ comm.cudaDev = -1 ∨ comm.busId = -1) := by
    push_neg
    exact ⟨h1, by omega, h3, h4⟩
  have hfirst : ncclCommDestroy (some comm) = (ncclSuccess, some (commFree comm), true) := by
    simp only [ncclCommDestroy]
    rw [if_neg hguard]
  have hsecond : ncclCommDestroy (some (commFree comm)) =
      (ncclInvalidArgument, some (commFree comm), false) := by
    simp only [ncclCommDestroy]
    rw [if_pos (Or.inl (show (commFree comm).rank = -1 from rfl))]
  exact ⟨hfirst, rfl, rfl, rfl, rfl, hsecond⟩

/-- C7 witness: the theorem applied to a concrete live communicator. -/
theorem ncclCommDestroy_double_guard_witness :
    ((2 : Int) ≠ -1 ∧ (0 : Int) < 4 ∧ (1 : Int) ≠ -1 ∧ (9 : Int) ≠ -1) ∧
    DestroyClaim ⟨2, 4, 1, 9, 0, ncclSuccess, 1, [⟨⟨true, some 3⟩, ⟨false, none⟩⟩], true⟩ :=
  ⟨⟨by decide, by decide, by decide, by decide⟩,
    ncclCommDestroy_double_guard ⟨2, 4, 1, 9, 0, ncclSuccess, 1,
      [⟨⟨true, some 3⟩, ⟨false, none⟩⟩], true⟩
      (by decide) (by decide) (by decide) (by decide)⟩

/-- C8, stated: abort on a non-null communicator returns success and
produces a state whose abort flag is 1 and whose every other embedded field
(identity, fatal error, collective-network support, channels with their
transport resources, bootstrap handle) is unchanged. -/
def AbortClaim (comm : ncclComm) : Prop :=
  ∃ c, ncclCommAbort (some comm) = (ncclSuccess, some c) ∧
    c.abortFlag = 1 ∧ c.rank = comm.rank ∧ c.nRanks = comm.nRanks ∧
    c.cudaDev = comm.cudaDev ∧ c.busId = comm.busId ∧
    c.fatalError = comm.fatalError ∧ c.collNetSupport = comm.collNetSupport ∧
    c.channels = comm.channels ∧ c.bootstrapOpen = comm.bootstrapOpen

/-- C8: for every non-null communicator, abort only stores 1 into the shared
abort flag and returns success; it frees no resource and leaves every other
field of the communicator unchanged. -/
theorem ncclCommAbort_frame (comm : ncclComm) : AbortClaim comm :=
  ⟨{ comm with abortFlag := 1 }, rfl, rfl, rfl, rfl, rfl, rfl, rfl, rfl, rfl, rfl⟩

/-- C10, stated: destroy and abort of a NULL handle both return success,
perform no teardown and touch no state. -/
def NullCommClaim : Prop :=
  ncclCommDestroy none = (ncclSuccess, none, false) ∧
  ncclCommAbort none = (ncclSuccess, none)

/-- C10: calling destroy or abort with a NULL communicator handle returns
success and performs no action: no field is read, no resource released, no
flag written. -/
theorem nullComm_noop : NullCommClaim :=
  ⟨rfl, rfl⟩

/-- The process-wide CPU affinity as observed when `initTransportsRank`
returns: either still the caller's saved affinity (`sched_getaffinity` at
`init.cc:1066`, restored by `sched_setaffinity` at `init.cc:1132`), or the
affinity pinned near the owned GPU by `ncclTopoSetAffinity`
(`init.cc:1067`). -/
inductive AffinityState where
  | saved
  | pinned
deriving DecidableEq, Repr

/-- The outcomes of the calls made by the tail of `initTransportsRank`
(`init.cc:1063-1136`) between saving the CPU affinity and returning, plus
the guard of the collective-network block (`init.cc:1093-1095`).  Each
field is the `ncclResult_t` the corresponding call returns. -/
structure tailCallResults where
  topoSetAffinity : ncclResult
  computeBuffSizes : ncclResult
  ringSetup : ncclResult
  ringP2pSetup : ncclResult
  treeConnect : ncclResult
  treeP2pSetup : ncclResult
  collNetActive : Bool
  collNetConnect : ncclResult
  collNetP2pSetup : ncclResult
  collNetCheck : ncclResult
  tuneModel : ncclResult
  p2pChannels : ncclResult
  setIntra : ncclResult
  proxyCreate : ncclResult
deriving DecidableEq, Repr

/-- The calls following the collective-network block (`init.cc:1120-1127`):
`ncclTopoTuneModel`, `ncclTopoComputeP2pChannels`, `ncclCommSetIntra` and
`ncclProxyCreate` are all wrapped in plain `NCCLCHECK`, whose failure
returns directly without reaching the `affinity_restore` label. -/
def tailAfterCollNet (e : tailCallResults) : ncclResult × AffinityState :=
  if e.tuneModel ≠ ncclSuccess then (e.tuneModel, AffinityState.pinned)
  else if e.p2pChannels ≠ ncclSuccess then (e.p2pChannels, AffinityState.pinned)
  else if e.setIntra ≠ ncclSuccess then (e.setIntra, AffinityState.pinned)
  else if e.proxyCreate ≠ ncclSuccess then (e.proxyCreate, AffinityState.pinned)
  else (ncclSuccess, AffinityState.saved)

/-- Control flow of `initTransportsRank` from the affinity save
(`init.cc:1066`) to its return, tracking which affinity the caller observes
on each exit path.  `NCCLCHECKGOTO(..., ret, affinity_restore)` failures
(ring/tree channel setup and connection, `init.cc:1073-1089`) jump to the
`affinity_restore` label, which re-installs the saved affinity before
returning; plain `NCCLCHECK` failures (`computeBuffSizes` at
`init.cc:1070`, the collective-network block at `init.cc:1100-1114`, and
the tail calls at `init.cc:1120-1127`) return immediately, bypassing the
label, so the pinned affinity leaks to the caller. -/
def initTransportsRankTail (e : tailCallResults) : ncclResult × AffinityState :=
  if e.topoSetAffinity ≠ ncclSuccess then (e.topoSetAffinity, AffinityState.saved)
  else if e.computeBuffSizes ≠ ncclSuccess then (e.computeBuffSizes, AffinityState.pinned)
  else if e.ringSetup ≠ ncclSuccess then (e.ringSetup, AffinityState.saved)
  else if e.ringP2pSetup ≠ ncclSuccess then (e.ringP2pSetup, AffinityState.saved)
  else if e.treeConnect ≠ ncclSuccess then (e.treeConnect, AffinityState.saved)
  else if e.treeP2pSetup ≠ ncclSuccess then (e.treeP2pSetup, AffinityState.saved)
  else if e.collNetActive then
    if e.collNetConnect ≠ ncclSuccess then (e.collNetConnect, AffinityState.pinned)
    else if e.collNetP2pSetup ≠ ncclSuccess then (e.collNetP2pSetup, AffinityState.pinned)
    else if e.collNetCheck ≠ ncclSuccess then (e.collNetCheck, AffinityState.pinned)
    else tailAfterCollNet e
  else tailAfterCollNet e

/-- The failing scenario: the affinity pin succeeds, then `computeBuffSizes`
fails with a system error (`ncclTopoCpuType` failing); every later call
would have succeeded. -/
def affinityLeakEnv : tailCallResults :=
  ⟨ncclSuccess, ncclSystemError, ncclSuccess, ncclSuccess, ncclSuccess, ncclSuccess,
    false, ncclSuccess, ncclSuccess, ncclSuccess, ncclSuccess, ncclSuccess,
    ncclSuccess, ncclSuccess⟩

/-- C9: evaluating the embedded control flow at the failing input: when
`computeBuffSizes` fails right after the CPU affinity was pinned,
`initTransportsRank` returns the error with the affinity still pinned — the
saved affinity is not restored on this exit path, contradicting the claim
that every exit path after the pin restores it.  (The restore does happen
on the `NCCLCHECKGOTO` paths and on success, as the embedding shows.) -/
theorem initTransportsRank_affinity_leak :
    initTransportsRankTail affinityLeakEnv = (ncclSystemError, AffinityState.pinned) ∧
    AffinityState.pinned ≠ AffinityState.saved := by
  exact ⟨rfl, by decide⟩

end RcclInit
